import Mathlib

/-!
Verification of the nibl development-loop core against its source.

The Go source is shallowly embedded: byte slices are modelled as `List Char`
(every byte pattern the code searches for is ASCII, so byte-level and
character-level search coincide on the texts involved), Go `bytes` functions
are re-implemented with the same semantics, stateful loops become explicit
state-passing functions, and external collaborators (YAML parsing, markdown
rendering, HTML sanitizing, the websocket transport, the build callback) are
parameters of the embedded functions, exactly as the spec scopes them out.
-/

namespace Nibl

/-! ## Generic models of Go byte-slice operations -/

/-- Model of Go `bytes.Index`: index of the first (leftmost) occurrence of
`pat` in `s`, or `none`. `bytes.Index` returns 0 for an empty pattern. -/
def listIndexOf (pat : List Char) : List Char → Option Nat
  | [] => if pat = [] then some 0 else none
  | c :: t =>
    if pat.isPrefixOf (c :: t) then some 0
    else (listIndexOf pat t).map (· + 1)

/-- Model of Go `bytes.Replace(s, old, new, 1)`: replace the first occurrence
of `old` by `new`; if `old` does not occur, return `s` unchanged. -/
def goReplaceOnce (old new s : List Char) : List Char :=
  match listIndexOf old s with
  | none => s
  | some i => s.take i ++ new ++ s.drop (i + old.length)

/-- Model of Go `bytes.SplitN(s, sep, n)` for a non-empty separator and
`n > 0`: split around the leftmost occurrences of `sep` into at most `n`
parts, the last part holding the unsplit remainder. -/
def goSplitN (sep : List Char) : List Char → Nat → List (List Char)
  | _, 0 => []
  | s, 1 => [s]
  | s, n + 2 =>
    match listIndexOf sep s with
    | none => [s]
    | some i => s.take i :: goSplitN sep (s.drop (i + sep.length)) (n + 1)

/-- Model of Go `strings.TrimSuffix`. -/
def goTrimSuffix (suf s : List Char) : List Char :=
  if suf.isSuffixOf s then s.take (s.length - suf.length) else s

/-- Number of positions of `s` at which `pat` occurs (occurrences may
overlap); used to state "contains ... exactly once". -/
def countOcc (pat s : List Char) : Nat :=
  ((List.range (s.length + 1)).filter (fun i => pat.isPrefixOf (s.drop i))).length

/-! ### Facts about `listIndexOf` -/

theorem listIndexOf_isPrefix {pat s : List Char} {i : Nat}
    (h : listIndexOf pat s = some i) : pat.isPrefixOf (s.drop i) = true := by
  induction s generalizing i with
  | nil =>
    by_cases hp : pat = ([] : List Char)
    · simp [listIndexOf, hp] at h
      subst hp
      simp [List.isPrefixOf]
    · simp [listIndexOf, hp] at h
  | cons c t ih =>
    by_cases hp : pat.isPrefixOf (c :: t)
    · simp [listIndexOf, hp] at h
      subst h
      simpa using hp
    · simp [listIndexOf, hp] at h
      obtain ⟨j, hj, hij⟩ := h
      subst hij
      simpa using ih hj

theorem listIndexOf_drop_decomp {pat s : List Char} {i : Nat}
    (h : listIndexOf pat s = some i) :
    s.drop i = pat ++ s.drop (i + pat.length) := by
  have hpre := listIndexOf_isPrefix h
  rw [List.isPrefixOf_iff_prefix] at hpre
  obtain ⟨u, hu⟩ := hpre
  have hdrop : s.drop (i + pat.length) = u := by
    have : (s.drop i).drop pat.length = u := by
      rw [← hu, List.drop_left]
    rw [← this, List.drop_drop, Nat.add_comm]
  rw [hdrop, hu]

theorem listIndexOf_decomp {pat s : List Char} {i : Nat}
    (h : listIndexOf pat s = some i) :
    s = s.take i ++ pat ++ s.drop (i + pat.length) := by
  conv_lhs => rw [← List.take_append_drop i s]
  rw [listIndexOf_drop_decomp h, List.append_assoc]

theorem listIndexOf_of_decomp (pat : List Char) (a b : List Char)
    (hp : pat ≠ []) : ∃ j, j ≤ a.length ∧ listIndexOf pat (a ++ pat ++ b) = some j := by
  induction a with
  | nil =>
    refine ⟨0, Nat.le_refl 0, ?_⟩
    have hpre : pat <+: ([] ++ pat ++ b) := by simp
    cases hcc : ([] ++ pat ++ b : List Char) with
    | nil =>
      exfalso
      apply hp
      have := congrArg List.length hcc
      simp at this
      exact this.1
    | cons c t =>
      rw [hcc] at hpre
      simp only [listIndexOf]
      simp [hpre, ← hcc]
  | cons c a' ih =>
    obtain ⟨j, hjle, hj⟩ := ih
    rw [List.append_assoc] at hj
    by_cases hpre : pat <+: (c :: (a' ++ (pat ++ b)))
    · refine ⟨0, Nat.zero_le _, ?_⟩
      have hl : (c :: a' ++ pat ++ b : List Char) = c :: (a' ++ pat ++ b) := by simp
      rw [hl]
      simp only [listIndexOf]
      simp [hpre]
    · refine ⟨j + 1, by simpa using Nat.succ_le_succ hjle, ?_⟩
      have hl : (c :: a' ++ pat ++ b : List Char) = c :: (a' ++ pat ++ b) := by simp
      rw [hl]
      simp only [listIndexOf]
      simp [hpre, hj]

theorem listIndexOf_none_no_occurrence {pat s : List Char}
    (h : listIndexOf pat s = none) (hp : pat ≠ []) :
    ∀ a b, s ≠ a ++ pat ++ b := by
  intro a b hs
  obtain ⟨j, _, hj⟩ := listIndexOf_of_decomp pat a b hp
  rw [← hs] at hj
  rw [hj] at h
  exact Option.noConfusion h

/-! ## Builder data model (internal/builder/models.go, builder.go) -/

/-- `PageMeta` from internal/builder/models.go; the Go zero value (used when
no front matter is parsed) has empty strings, false flags and an empty
parameter bag. The `map[string]interface{}` inline bag is modelled as an
association list of strings. The Go field `Unsafe`-related options live in
`BuildOptions` below. -/
structure PageMeta where
  title : String := ""
  author : String := ""
  draft : Bool := false
  description : String := ""
  showEditML : Bool := false
  storyTitle : String := ""
  storyAuthor : String := ""
  params : List (String × String) := []
  deriving DecidableEq, Repr

/-- `BuildOptions` from internal/builder/builder.go. The Go field `Unsafe`
(disable sanitization) is named `unsafeMode` here because its Go name is not
a legal Lean field name in this development. -/
structure BuildOptions where
  cleanDestination : Bool := false
  unsafeMode : Bool := false
  debug : Bool := false
  deriving DecidableEq, Repr

/-- The front-matter delimiter the source splits on: the three-byte
substring `---` (`bytes.SplitN(rawContent, []byte("---"), 3)`). -/
def fmDelim : List Char := ['-', '-', '-']

/-- The front-matter split performed by `processContent`
(internal/builder/render.go, step 1): `parts := bytes.SplitN(raw, "---", 3)`;
if at least three parts result, `parts[1]` is handed to the YAML parser and
`parts[2]` becomes the body, otherwise the whole file is the body. Returns
(region handed to the YAML parser if any, body). -/
def splitFrontMatter (raw : List Char) : Option (List Char) × List Char :=
  let parts := goSplitN fmDelim raw 3
  if parts.length ≥ 3 then (some (parts.getD 1 []), parts.getD 2 [])
  else (none, raw)

/-- `processContent` from internal/builder/render.go. The external
collaborators are parameters: `yamlParse` models `yaml.Unmarshal` into a
`PageMeta` (starting from the zero value), `mdRender` models the Goldmark
conversion and `sanitize` models the bluemonday policy, each a pure
function as the spec scopes them. Returns the parsed metadata and the
rendered (possibly sanitized) HTML, or the error of a failed YAML parse. -/
def processContent (yamlParse : List Char → Except String PageMeta)
    (mdRender sanitize : List Char → List Char)
    (rawContent : List Char) (opts : BuildOptions) :
    Except String (PageMeta × List Char) :=
  let sp := splitFrontMatter rawContent
  match sp.1 with
  | some fmRegion =>
    match yamlParse fmRegion with
    | .error e => .error e
    | .ok meta =>
      let htmlOut := mdRender sp.2
      if opts.unsafeMode then .ok (meta, htmlOut) else .ok (meta, sanitize htmlOut)
  | none =>
    let htmlOut := mdRender sp.2
    if opts.unsafeMode then .ok ({}, htmlOut) else .ok ({}, sanitize htmlOut)

/-- Modelled from the spec (for the counterexample only): the spec's notion
of a leading front-matter block — the first line of the file is exactly a
line of three dashes and some later line is again exactly three dashes.
The source has no such notion; this definition exists to state the spec
claim being refuted. -/
def specHasLeadingFrontMatter (raw : List Char) : Bool :=
  match raw.splitOn '\n' with
  | [] => false
  | l0 :: rest => l0 = fmDelim && rest.any (· = fmDelim)

/-! ### Behaviour of the three-way split -/

theorem goSplitN_three_of_none {sep s : List Char}
    (h : listIndexOf sep s = none) : goSplitN sep s 3 = [s] := by
  simp [goSplitN, h]

theorem goSplitN_three_of_one {sep s : List Char} {i : Nat}
    (h1 : listIndexOf sep s = some i)
    (h2 : listIndexOf sep (s.drop (i + sep.length)) = none) :
    goSplitN sep s 3 = [s.take i, s.drop (i + sep.length)] := by
  simp [goSplitN, h1, h2]

theorem goSplitN_three_of_two {sep s : List Char} {i j : Nat}
    (h1 : listIndexOf sep s = some i)
    (h2 : listIndexOf sep (s.drop (i + sep.length)) = some j) :
    goSplitN sep s 3 =
      [s.take i, (s.drop (i + sep.length)).take j,
        (s.drop (i + sep.length)).drop (j + sep.length)] := by
  simp [goSplitN, h1, h2]

/-- C5 counterexample: the file `a---b---c` has no leading front-matter
block in the spec's sense (no line of three dashes at all), yet
`processContent`'s split does not treat the whole file as the body: it
discards the prefix `a`, hands `b` to the YAML parser and keeps only `c`
as the body, because `bytes.SplitN` matches the substring `---` anywhere. -/
theorem frontMatter_leading_only_cex :
    specHasLeadingFrontMatter ('a' :: fmDelim ++ 'b' :: fmDelim ++ ['c']) = false ∧
    (splitFrontMatter ('a' :: fmDelim ++ 'b' :: fmDelim ++ ['c'])).2 ≠
      ('a' :: fmDelim ++ 'b' :: fmDelim ++ ['c']) ∧
    (splitFrontMatter ('a' :: fmDelim ++ 'b' :: fmDelim ++ ['c'])).1 = some ['b'] := by
  decide

/-- C5 (amended): front matter is recognized by splitting the raw file on
the first two occurrences of the substring `---` anywhere in the file, not
only on a leading block of dash-delimited lines. If the file contains fewer
than two occurrences, the whole file is the body and the metadata keeps its
default values (empty title, draft false); otherwise the text between the
first two occurrences is handed to the YAML parser, the text before the
first occurrence is discarded, and the text after the second occurrence
becomes the body. -/
theorem frontMatter_split_amended
    (yamlParse : List Char → Except String PageMeta)
    (mdRender sanitize : List Char → List Char) (opts : BuildOptions)
    (raw raw1 raw2 : List Char) (k i j : Nat)
    (h0 : listIndexOf fmDelim raw = none)
    (h1 : listIndexOf fmDelim raw1 = some k)
    (h1b : listIndexOf fmDelim (raw1.drop (k + 3)) = none)
    (h2 : listIndexOf fmDelim raw2 = some i)
    (h2b : listIndexOf fmDelim (raw2.drop (i + 3)) = some j) :
    splitFrontMatter raw = (none, raw) ∧
    processContent yamlParse mdRender sanitize raw opts =
      .ok (({} : PageMeta),
        if opts.unsafeMode then mdRender raw else sanitize (mdRender raw)) ∧
    splitFrontMatter raw1 = (none, raw1) ∧
    splitFrontMatter raw2 =
      (some ((raw2.drop (i + 3)).take j), (raw2.drop (i + 3)).drop (j + 3)) ∧
    raw2 = raw2.take i ++ fmDelim ++
      ((raw2.drop (i + 3)).take j ++ fmDelim ++ (raw2.drop (i + 3)).drop (j + 3)) := by
  have hlen : fmDelim.length = 3 := rfl
  refine ⟨?_, ?_, ?_, ?_, ?_⟩
  · simp [splitFrontMatter, goSplitN_three_of_none h0]
  · simp [processContent, splitFrontMatter, goSplitN_three_of_none h0]
    cases opts.unsafeMode <;> simp
  · rw [splitFrontMatter]
    rw [goSplitN_three_of_one h1 (by rw [hlen]; exact h1b)]
    simp
  · rw [splitFrontMatter]
    rw [goSplitN_three_of_two h2 (by rw [hlen]; exact h2b)]
    simp [hlen]
  · have d1 := listIndexOf_decomp h2
    have d2 := listIndexOf_decomp h2b
    conv_lhs => rw [d1]
    rw [hlen] at d2 ⊢
    conv_lhs => rw [d2]

theorem frontMatter_split_amended_witness :
    (listIndexOf fmDelim ['x'] = none ∧
      listIndexOf fmDelim ('a' :: fmDelim ++ ['b']) = some 1 ∧
      listIndexOf fmDelim (('a' :: fmDelim ++ ['b']).drop (1 + 3)) = none ∧
      listIndexOf fmDelim ('a' :: fmDelim ++ 'b' :: fmDelim ++ ['c']) = some 1 ∧
      listIndexOf fmDelim
        (('a' :: fmDelim ++ 'b' :: fmDelim ++ ['c']).drop (1 + 3)) = some 1) ∧
    (splitFrontMatter ['x'] = (none, ['x']) ∧
    processContent (fun _ => .ok {}) id id ['x'] {} =
      .ok (({} : PageMeta),
        if BuildOptions.unsafeMode {} then id ['x'] else id (id ['x'])) ∧
    splitFrontMatter ('a' :: fmDelim ++ ['b']) = (none, 'a' :: fmDelim ++ ['b']) ∧
    splitFrontMatter ('a' :: fmDelim ++ 'b' :: fmDelim ++ ['c']) =
      (some ((('a' :: fmDelim ++ 'b' :: fmDelim ++ ['c']).drop (1 + 3)).take 1),
        (('a' :: fmDelim ++ 'b' :: fmDelim ++ ['c']).drop (1 + 3)).drop (1 + 3)) ∧
    ('a' :: fmDelim ++ 'b' :: fmDelim ++ ['c'] : List Char) =
      ('a' :: fmDelim ++ 'b' :: fmDelim ++ ['c']).take 1 ++ fmDelim ++
        (((('a' :: fmDelim ++ 'b' :: fmDelim ++ ['c']).drop (1 + 3)).take 1) ++ fmDelim ++
          (('a' :: fmDelim ++ 'b' :: fmDelim ++ ['c']).drop (1 + 3)).drop (1 + 3))) :=
  ⟨⟨by decide, by decide, by decide, by decide, by decide⟩,
    frontMatter_split_amended (fun _ => .ok {}) id id {} ['x']
      ('a' :: fmDelim ++ ['b']) ('a' :: fmDelim ++ 'b' :: fmDelim ++ ['c']) 1 1 1
      (by decide) (by decide) (by decide) (by decide) (by decide)⟩

/-! ## Build pipeline walk (internal/builder/builder.go, `BuildSite`) -/

/-- Model of Go `filepath.Ext`: the suffix of the path beginning at the
final dot in the final path element, or empty if there is none; implemented
as the Go loop does, scanning backwards until a dot or a path separator. -/
def extScan : List Char → List Char → List Char
  | [], _ => []
  | c :: rest, acc =>
    if c = '/' then [] else if c = '.' then '.' :: acc else extScan rest (c :: acc)

/-- See `extScan`. -/
def filepathExt (p : List Char) : List Char := extScan p.reverse []

/-- `isExceptionPage` from internal/builder/builder.go: pages that are
emitted even when marked draft. -/
def isExceptionPage (slug : List Char) : Bool :=
  slug = "index".data || slug = "about".data || slug = "menu".data

/-- One file of the content tree as the walk sees it: its path relative to
the content root (slash-separated, as produced by `filepath.Rel` on the
walked tree) and its raw bytes. Directories, which the walk skips, are not
modelled. -/
structure ContentFile where
  relPath : List Char
  raw : List Char
  deriving DecidableEq, Repr

/-- The extension-stripped relative path that `BuildSite` compares against
the allow-list: `strings.TrimSuffix(relPath, ext)`. -/
def pageSlug (f : ContentFile) : List Char :=
  goTrimSuffix (filepathExt f.relPath) f.relPath

/-- The relative output path `BuildSite` writes a page to:
`strings.TrimSuffix(relPath, ext) + ".html"`. -/
def pageOutputPath (f : ContentFile) : List Char :=
  pageSlug f ++ ".html".data

/-- The content pass of `BuildSite` (internal/builder/builder.go lines
91-157), walking the given files in order: skip files whose extension is
neither `.html` nor `.md`; run `processContent` and abort the whole walk on
its error; skip a page whose draft flag is set unless its slug is on the
allow-list; otherwise write its output path and count it. Returns the list
of written relative output paths and the `pagesGenerated` count. Writing,
cleaning and static-asset copying are filesystem effects carried by the
returned path list; the UTF-8 validity check always passes on `List Char`
contents and is not modelled. -/
def buildWalk (yamlParse : List Char → Except String PageMeta)
    (mdRender sanitize : List Char → List Char) (opts : BuildOptions) :
    List ContentFile → Except String (List (List Char) × Nat)
  | [] => .ok ([], 0)
  | f :: rest =>
    let ext := filepathExt f.relPath
    if ext ≠ ".html".data ∧ ext ≠ ".md".data then
      buildWalk yamlParse mdRender sanitize opts rest
    else
      match processContent yamlParse mdRender sanitize f.raw opts with
      | .error e => .error e
      | .ok (meta, _) =>
        if meta.draft ∧ ¬ isExceptionPage (pageSlug f) then
          buildWalk yamlParse mdRender sanitize opts rest
        else
          match buildWalk yamlParse mdRender sanitize opts rest with
          | .error e => .error e
          | .ok (outs, n) => .ok (pageOutputPath f :: outs, n + 1)

/-- Extending the tail of the walked list pointwise: one walk step treats
its own file the same way whatever the remainder evaluates to. -/
theorem buildWalk_cons_congr (yamlParse : List Char → Except String PageMeta)
    (mdRender sanitize : List Char → List Char) (opts : BuildOptions)
    (p : ContentFile) (r1 r2 : List ContentFile)
    (h : buildWalk yamlParse mdRender sanitize opts r1 =
      buildWalk yamlParse mdRender sanitize opts r2) :
    buildWalk yamlParse mdRender sanitize opts (p :: r1) =
      buildWalk yamlParse mdRender sanitize opts (p :: r2) := by
  simp only [buildWalk]
  split
  · exact h
  · split
    · rfl
    · split
      · exact h
      · rw [h]

/-- A single draft, non-allow-listed file contributes nothing to the walk. -/
theorem buildWalk_skips_draft (yamlParse : List Char → Except String PageMeta)
    (mdRender sanitize : List Char → List Char) (opts : BuildOptions)
    (f : ContentFile) (metaF : PageMeta) (hF : List Char)
    (rest : List ContentFile)
    (hfp : processContent yamlParse mdRender sanitize f.raw opts = .ok (metaF, hF))
    (hfd : metaF.draft = true)
    (hfe : isExceptionPage (pageSlug f) = false) :
    buildWalk yamlParse mdRender sanitize opts (f :: rest) =
      buildWalk yamlParse mdRender sanitize opts rest := by
  simp only [buildWalk]
  split
  · rfl
  · rw [hfp]
    simp only
    rw [if_pos ⟨hfd, by simp [hfe]⟩]

/-- C4: a content document whose parsed draft flag is true and whose slug is
not on the always-emit allow-list produces no output file and is excluded
from the returned page count (the whole build result is the same as if the
document were absent); the same kind of document with the slug `index` or
`about` is emitted and counted regardless of its draft flag. -/
theorem build_draft_filter (yamlParse : List Char → Except String PageMeta)
    (mdRender sanitize : List Char → List Char) (opts : BuildOptions)
    (pre post : List ContentFile) (f g : ContentFile)
    (metaF metaG : PageMeta) (hF hG : List Char)
    (hfp : processContent yamlParse mdRender sanitize f.raw opts = .ok (metaF, hF))
    (hfd : metaF.draft = true)
    (hfe : isExceptionPage (pageSlug f) = false)
    (hgext : filepathExt g.relPath = ".html".data ∨ filepathExt g.relPath = ".md".data)
    (hgp : processContent yamlParse mdRender sanitize g.raw opts = .ok (metaG, hG))
    (hgd : metaG.draft = true)
    (hgs : pageSlug g = "index".data ∨ pageSlug g = "about".data) :
    buildWalk yamlParse mdRender sanitize opts (pre ++ f :: post) =
      buildWalk yamlParse mdRender sanitize opts (pre ++ post) ∧
    (∀ outs n, buildWalk yamlParse mdRender sanitize opts post = .ok (outs, n) →
      buildWalk yamlParse mdRender sanitize opts (g :: post) =
        .ok (pageOutputPath g :: outs, n + 1)) := by
  constructor
  · induction pre with
    | nil =>
      simpa using buildWalk_skips_draft yamlParse mdRender sanitize opts
        f metaF hF post hfp hfd hfe
    | cons p pre' ih =>
      simpa using buildWalk_cons_congr yamlParse mdRender sanitize opts p _ _ ih
  · intro outs n hpost
    have hexc : isExceptionPage (pageSlug g) = true := by
      rcases hgs with hgs | hgs <;> simp [isExceptionPage, hgs]
    simp only [buildWalk]
    rw [if_neg (by rcases hgext with hx | hx <;> simp [hx])]
    rw [hgp]
    simp only
    rw [if_neg (by simp [hexc])]
    rw [hpost]

theorem build_draft_filter_witness :
    (processContent (fun _ => .ok { draft := true }) id id
        ("---t---post body".data) {} =
        .ok (({ draft := true } : PageMeta), "post body".data) ∧
      (({ draft := true } : PageMeta)).draft = true ∧
      isExceptionPage (pageSlug ⟨"post.md".data, "---t---post body".data⟩) = false ∧
      (filepathExt ("index.md".data) = ".html".data ∨
        filepathExt ("index.md".data) = ".md".data) ∧
      pageSlug ⟨"index.md".data, "---t---home".data⟩ = "index".data) ∧
    (buildWalk (fun _ => .ok { draft := true }) id id {}
        ([] ++ ⟨"post.md".data, "---t---post body".data⟩ :: []) =
      buildWalk (fun _ => .ok { draft := true }) id id {} ([] ++ []) ∧
    (∀ outs n, buildWalk (fun _ => .ok { draft := true }) id id {} [] = .ok (outs, n) →
      buildWalk (fun _ => .ok { draft := true }) id id {}
          (⟨"index.md".data, "---t---home".data⟩ :: []) =
        .ok (pageOutputPath ⟨"index.md".data, "---t---home".data⟩ :: outs, n + 1))) :=
  ⟨⟨by rfl, by decide, by decide, by decide, by decide⟩,
    build_draft_filter (fun _ => .ok { draft := true }) id id {} [] []
      ⟨"post.md".data, "---t---post body".data⟩
      ⟨"index.md".data, "---t---home".data⟩
      { draft := true } { draft := true } "post body".data "home".data
      (by rfl) (by decide) (by decide) (by decide) (by rfl) (by decide)
      (by decide)⟩

/-! ### The allow-list sees the full relative path -/

theorem extScan_md_suffix (rest acc : List Char) :
    extScan ('d' :: 'm' :: '.' :: rest) acc = '.' :: 'm' :: 'd' :: acc := by
  simp [extScan]

/-- Any path ending in `index.md` has Go extension `.md`, whatever lies
before the final separator. -/
theorem filepathExt_dir_index (d : List Char) :
    filepathExt (d ++ ('/' :: "index.md".data)) = ".md".data := by
  rw [filepathExt, List.reverse_append]
  have : (('/' :: "index.md".data : List Char)).reverse
      = 'd' :: 'm' :: '.' :: ['x', 'e', 'd', 'n', 'i', '/'] := by decide
  rw [this]
  rw [show ('d' :: 'm' :: '.' :: ['x', 'e', 'd', 'n', 'i', '/'] ++ d.reverse : List Char)
      = 'd' :: 'm' :: '.' :: (['x', 'e', 'd', 'n', 'i', '/'] ++ d.reverse) from rfl]
  rw [extScan_md_suffix]

theorem slug_of_dir_index (d : List Char) :
    goTrimSuffix (filepathExt (d ++ ('/' :: "index.md".data)))
      (d ++ ('/' :: "index.md".data)) = d ++ ('/' :: "index".data) := by
  rw [filepathExt_dir_index, goTrimSuffix, if_pos]
  · have hl : (d ++ ('/' :: "index.md".data)).length - (".md".data).length
        = d.length + 6 := by
      simp
    rw [hl, List.take_append_eq_append_take]
    rw [List.take_of_length_le (by omega : d.length ≤ d.length + 6)]
    congr 1
    rw [show d.length + 6 - d.length = 6 by omega]
    decide
  · rw [List.isSuffixOf_iff_suffix]
    exact ⟨d ++ ('/' :: "index".data), by simp⟩

theorem not_exception_dir_index (d : List Char) :
    isExceptionPage (d ++ ('/' :: "index".data)) = false := by
  have hl : (d ++ ('/' :: "index".data)).length = d.length + 6 := by simp
  simp only [isExceptionPage, Bool.or_eq_false_iff, decide_eq_false_iff_not]
  refine ⟨⟨?_, ?_⟩, ?_⟩ <;>
    · intro h
      have := congrArg List.length h
      rw [hl] at this
      simp at this

/-- C10 (implicit): the always-emit allow-list is compared against the full
extension-stripped path relative to the content root, so a draft document
named `index.md` inside any subdirectory contributes neither an output file
nor a page count (the build result equals the run without it), while the
top-level draft `index.md` is still emitted and counted; and only the slugs
`index`, `about` and `menu` are on the allow-list at all. -/
theorem build_allowlist_full_path (yamlParse : List Char → Except String PageMeta)
    (mdRender sanitize : List Char → List Char) (opts : BuildOptions)
    (pre post : List ContentFile) (d : List Char) (f g : ContentFile)
    (metaF metaG : PageMeta) (hF hG : List Char)
    (hfrel : f.relPath = d ++ ('/' :: "index.md".data))
    (hfp : processContent yamlParse mdRender sanitize f.raw opts = .ok (metaF, hF))
    (hfd : metaF.draft = true)
    (hgrel : g.relPath = "index.md".data)
    (hgp : processContent yamlParse mdRender sanitize g.raw opts = .ok (metaG, hG))
    (hgd : metaG.draft = true) :
    buildWalk yamlParse mdRender sanitize opts (pre ++ f :: post) =
      buildWalk yamlParse mdRender sanitize opts (pre ++ post) ∧
    (∀ outs n, buildWalk yamlParse mdRender sanitize opts post = .ok (outs, n) →
      buildWalk yamlParse mdRender sanitize opts (g :: post) =
        .ok (pageOutputPath g :: outs, n + 1)) ∧
    (∀ s, isExceptionPage s = true →
      s = "index".data ∨ s = "about".data ∨ s = "menu".data) := by
  have hfe : isExceptionPage (pageSlug f) = false := by
    rw [pageSlug, hfrel, slug_of_dir_index, not_exception_dir_index]
  refine ⟨?_, ?_, ?_⟩
  · induction pre with
    | nil =>
      simpa using buildWalk_skips_draft yamlParse mdRender sanitize opts
        f metaF hF post hfp hfd hfe
    | cons p pre' ih =>
      simpa using buildWalk_cons_congr yamlParse mdRender sanitize opts p _ _ ih
  · intro outs n hpost
    have hslug : pageSlug g = "index".data := by
      rw [pageSlug, hgrel]
      decide
    have hexc : isExceptionPage (pageSlug g) = true := by
      rw [hslug]
      decide
    simp only [buildWalk]
    rw [if_neg (by rw [hgrel]; decide)]
    rw [hgp]
    simp only
    rw [if_neg (by simp [hexc])]
    rw [hpost]
  · intro s h
    have h2 : (s = "index".data ∨ s = "about".data) ∨ s = "menu".data := by
      simpa [isExceptionPage] using h
    tauto

theorem build_allowlist_full_path_witness :
    ((⟨"blog/index.md".data, "---t---x".data⟩ : ContentFile).relPath =
        "blog".data ++ ('/' :: "index.md".data) ∧
      processContent (fun _ => .ok { draft := true }) id id
        ("---t---x".data) {} = .ok (({ draft := true } : PageMeta), "x".data) ∧
      (({ draft := true } : PageMeta)).draft = true ∧
      (⟨"index.md".data, "---t---y".data⟩ : ContentFile).relPath = "index.md".data ∧
      processContent (fun _ => .ok { draft := true }) id id
        ("---t---y".data) {} = .ok (({ draft := true } : PageMeta), "y".data)) ∧
    (buildWalk (fun _ => .ok { draft := true }) id id {}
        ([] ++ ⟨"blog/index.md".data, "---t---x".data⟩ :: []) =
      buildWalk (fun _ => .ok { draft := true }) id id {} ([] ++ []) ∧
    (∀ outs n, buildWalk (fun _ => .ok { draft := true }) id id {} [] = .ok (outs, n) →
      buildWalk (fun _ => .ok { draft := true }) id id {}
          (⟨"index.md".data, "---t---y".data⟩ :: []) =
        .ok (pageOutputPath ⟨"index.md".data, "---t---y".data⟩ :: outs, n + 1)) ∧
    (∀ s, isExceptionPage s = true →
      s = "index".data ∨ s = "about".data ∨ s = "menu".data)) :=
  ⟨⟨by decide, by rfl, by decide, by decide, by rfl⟩,
    build_allowlist_full_path (fun _ => .ok { draft := true }) id id {} [] []
      "blog".data
      ⟨"blog/index.md".data, "---t---x".data⟩
      ⟨"index.md".data, "---t---y".data⟩
      { draft := true } { draft := true } "x".data "y".data
      (by decide) (by rfl) (by decide) (by decide) (by rfl) (by decide)⟩

/-! ## Response interceptor (internal/server/server.go) -/

/-- HTTP headers, as an association list from header name to its list of
values, mirroring `http.Header`. -/
abbrev Headers := List (String × List String)

/-- `http.Header.Set`: replace all values of `k` by the single value `v`. -/
def hdrSet (h : Headers) (k v : String) : Headers :=
  h.filter (fun p => p.1 != k) ++ [(k, [v])]

/-- `http.Header.Add`: append `v` to the values of `k`. -/
def hdrAdd (h : Headers) (k v : String) : Headers :=
  if h.any (fun p => p.1 == k) then
    h.map (fun p => if p.1 == k then (p.1, p.2 ++ [v]) else p)
  else h ++ [(k, [v])]

/-- `http.Header.Get`-like lookup returning all values of `k`. -/
def hdrGet (h : Headers) (k : String) : Option (List String) :=
  (h.find? (fun p => p.1 == k)).map (·.2)

/-- The sequence of `Set` calls a handler makes on a header map. -/
def applySets (base : Headers) : List (String × String) → Headers
  | [] => base
  | (k, v) :: rest => applySets (hdrSet base k v) rest

/-- Copying every header of `other` onto `base` with `Add`, as
`liveReloadWrapper` does after running the inner handler. -/
def hdrAddAll (base other : Headers) : Headers :=
  other.foldl (fun acc p => p.2.foldl (fun a v => hdrAdd a p.1 v) acc) base

/-- The three cache-disabling `Set` calls `liveReloadWrapper` makes on the
real response writer before anything else. -/
def cacheHeaders : Headers :=
  hdrSet (hdrSet (hdrSet [] "Cache-Control" "no-cache, no-store, must-revalidate")
    "Pragma" "no-cache") "Expires" "0"

/-- The effect of one inner handler on a response writer: the `Set` calls it
makes on the header map, its at most one `WriteHeader` call, and the bytes
it writes. (The wrapped handler is the static file server; modelling
handlers by these three effects covers it and keeps the embedding of the
wrapper itself exact.) -/
structure InnerResp where
  hSet : List (String × String)
  status : Option Nat
  body : List Char
  deriving DecidableEq, Repr

/-- The `interceptingWriter` state: captured body, status and header map. -/
structure InterceptState where
  body : List Char
  statusCode : Nat
  header : Headers
  deriving DecidableEq, Repr

/-- `newInterceptingWriter`: empty buffer, fresh header map, and a status
code initialized to `http.StatusOK` (200). -/
def newInterceptingWriter : InterceptState :=
  { body := [], statusCode := 200, header := [] }

/-- Running the inner handler against the intercepting writer: its header
`Set`s build the shadow header map, a `WriteHeader` call overwrites the
captured status, its writes append to the buffer. -/
def runIntercept (inner : InnerResp) : InterceptState :=
  let s1 := { newInterceptingWriter with
    header := applySets newInterceptingWriter.header inner.hSet }
  let s2 := match inner.status with
    | none => s1
    | some c => { s1 with statusCode := c }
  { s2 with body := s2.body ++ inner.body }

/-- `isHTML` in `liveReloadWrapper`: the request path (URL path bytes) ends
in `.html` or in a slash. -/
def isPageLike (path : List Char) : Bool :=
  (".html".data).isSuffixOf path || ("/".data).isSuffixOf path

/-- The closing tag the wrapper searches for. -/
def bodyTag : List Char := "</body>".data

/-- The Go constant `liveReloadScript`, byte for byte (braces and
apostrophes written as hexadecimal escapes). -/
def liveReloadScript : String :=
  "\n<script>\n  (function() \x7b\n    let socket = new WebSocket(\"ws://\" + window.location.host + \"/ws\");\n    socket.onmessage = function(event) \x7b\n      if (event.data === \"reload\") \x7b\n        console.log(\"Reloading page...\");\n        window.location.reload();\n      \x7d\n    \x7d;\n    socket.onclose = function() \x7b\n      // Don\x27t log on normal close, it\x27s just noise.\n    \x7d;\n    socket.onerror = function(error) \x7b\n      console.error(\"Live reload connection error. Please restart \x27nibl serve\x27.\");\n    \x7d;\n  \x7d)();\n</script>\n"

/-- The script as bytes. -/
def scriptChars : List Char := liveReloadScript.data

/-- The response the client finally receives. -/
structure OutResp where
  status : Nat
  headers : Headers
  body : List Char
  deriving DecidableEq, Repr

/-- `liveReloadWrapper` from internal/server/server.go: cache-disabling
headers are set on the real writer first; a non-page-like request runs the
inner handler directly against the real writer; a page-like request runs it
against the intercepting writer, copies the captured headers with `Add`,
passes a non-200 response through, and for a 200 response replaces the
first `</body>` by the script followed by `</body>` and sets
`Content-Length` to the new body length. -/
def liveReloadWrapper (inner : InnerResp) (path : List Char) : OutResp :=
  if isPageLike path then
    let iw := runIntercept inner
    let merged := hdrAddAll cacheHeaders iw.header
    if iw.statusCode ≠ 200 then
      { status := iw.statusCode, headers := merged, body := iw.body }
    else
      let injected := goReplaceOnce bodyTag (scriptChars ++ bodyTag) iw.body
      { status := iw.statusCode,
        headers := hdrSet merged "Content-Length" (toString injected.length),
        body := injected }
  else
    { status := inner.status.getD 200,
      headers := applySets cacheHeaders inner.hSet,
      body := inner.body }

theorem runIntercept_body (inner : InnerResp) :
    (runIntercept inner).body = inner.body := by
  obtain ⟨hs, st, b⟩ := inner
  cases st <;> simp [runIntercept, newInterceptingWriter]

theorem runIntercept_statusCode (inner : InnerResp) :
    (runIntercept inner).statusCode = inner.status.getD 200 := by
  obtain ⟨hs, st, b⟩ := inner
  cases st <;> simp [runIntercept, newInterceptingWriter]

/-! ### Header lookup lemmas -/

theorem find?_filter_of_imp {α : Type} (p q : α → Bool) (l : List α)
    (h : ∀ x, p x = true → q x = true) :
    (l.filter q).find? p = l.find? p := by
  induction l with
  | nil => rfl
  | cons a t ih =>
    by_cases hq : q a = true
    · by_cases hp : p a = true <;>
        simp [List.filter_cons, List.find?_cons, hq, hp, ih]
    · have hp : p a = false := by
        cases hpa : p a
        · rfl
        · exact absurd (h a hpa) hq
      simp [List.filter_cons, List.find?_cons, hq, hp, ih]

theorem hdrGet_hdrSet (base : Headers) (k' v k : String) :
    hdrGet (hdrSet base k' v) k = if k' = k then some [v] else hdrGet base k := by
  by_cases h : k' = k
  · subst h
    rw [if_pos rfl, hdrSet, hdrGet, List.find?_append]
    have hnone : (base.filter (fun p => p.1 != k')).find? (fun p => p.1 == k')
        = none := by
      rw [List.find?_eq_none]
      intro x hx
      have := List.of_mem_filter hx
      simpa using this
    rw [hnone]
    simp [List.find?]
  · rw [if_neg h, hdrSet, hdrGet, hdrGet, List.find?_append]
    have hkk : (k' == k) = false := by simpa using h
    have h2 : (([(k', [v])] : Headers)).find? (fun p => p.1 == k) = none := by
      simp [List.find?, hkk]
    rw [h2]
    rw [find?_filter_of_imp _ _ _ (fun x hx => ?_)]
    · cases hfind : base.find? (fun p => p.1 == k) <;> simp [Option.orElse]
    · have : x.1 = k := by simpa using hx
      simp [this]
      simpa using fun hc => h hc.symm

theorem hdrGet_applySets (ops : List (String × String)) (base : Headers)
    (k : String) :
    hdrGet (applySets base ops) k =
      ops.foldl (fun acc p => if p.1 = k then some [p.2] else acc)
        (hdrGet base k) := by
  induction ops generalizing base with
  | nil => rfl
  | cons p rest ih =>
    simp only [applySets, List.foldl_cons]
    rw [ih, hdrGet_hdrSet]

theorem hdrGet_cacheHeaders_other (k : String) (h1 : k ≠ "Cache-Control")
    (h2 : k ≠ "Pragma") (h3 : k ≠ "Expires") : hdrGet cacheHeaders k = none := by
  have e : cacheHeaders =
      [("Cache-Control", ["no-cache, no-store, must-revalidate"]),
        ("Pragma", ["no-cache"]), ("Expires", ["0"])] := by decide
  rw [e]
  have e1 : (("Cache-Control" : String) == k) = false := by simpa using Ne.symm h1
  have e2 : (("Pragma" : String) == k) = false := by simpa using Ne.symm h2
  have e3 : (("Expires" : String) == k) = false := by simpa using Ne.symm h3
  simp [hdrGet, List.find?, e1, e2, e3]

/-! ### Interceptor theorems -/

/-- C7: a page-like request whose inner handler responds with a status other
than 200 is forwarded with that original status code and a body
byte-identical to what the inner handler wrote; and on a non-page-like path
the body reaching the client is byte-identical to what the inner handler
wrote. -/
theorem interceptor_error_passthrough (inner inner2 : InnerResp)
    (path path2 : List Char)
    (h1 : isPageLike path = true)
    (h2 : (runIntercept inner).statusCode ≠ 200)
    (h3 : isPageLike path2 = false) :
    (liveReloadWrapper inner path).status = (runIntercept inner).statusCode ∧
    (liveReloadWrapper inner path).body = inner.body ∧
    (liveReloadWrapper inner2 path2).body = inner2.body := by
  refine ⟨?_, ?_, ?_⟩
  · simp [liveReloadWrapper, h1, h2]
  · simp [liveReloadWrapper, h1, h2, runIntercept_body]
  · simp [liveReloadWrapper, h3]

theorem interceptor_error_passthrough_witness :
    (isPageLike "/e.html".data = true ∧
      (runIntercept ⟨[], some 404, "missing".data⟩).statusCode ≠ 200 ∧
      isPageLike "/app.css".data = false) ∧
    ((liveReloadWrapper ⟨[], some 404, "missing".data⟩ "/e.html".data).status =
      (runIntercept ⟨[], some 404, "missing".data⟩).statusCode ∧
    (liveReloadWrapper ⟨[], some 404, "missing".data⟩ "/e.html".data).body =
      "missing".data ∧
    (liveReloadWrapper ⟨[], none, "x".data⟩ "/app.css".data).body = "x".data) :=
  ⟨⟨by decide, by decide, by decide⟩,
    interceptor_error_passthrough ⟨[], some 404, "missing".data⟩
      ⟨[], none, "x".data⟩ "/e.html".data "/app.css".data
      (by decide) (by decide) (by decide)⟩

/-- C8 counterexample: on the non-page-like path `/app.css`, an inner
handler that sets no headers at all still produces a response carrying the
wrapper's `Cache-Control` header, so the response headers do not pass
through unmodified. -/
theorem interceptor_nonpage_headers_cex :
    isPageLike "/app.css".data = false ∧
    (⟨[], none, ['x']⟩ : InnerResp).hSet = [] ∧
    hdrGet (liveReloadWrapper ⟨[], none, ['x']⟩ "/app.css".data).headers
      "Cache-Control" = some ["no-cache, no-store, must-revalidate"] := by
  refine ⟨by decide, rfl, ?_⟩
  decide

/-- A fold of header `Set`s never touching `k` leaves a lookup of `k`
unchanged. -/
theorem foldl_setLast_of_absent {k : String} (ops : List (String × String))
    (acc : Option (List String)) (h : ∀ p ∈ ops, p.1 ≠ k) :
    ops.foldl (fun a p => if p.1 = k then some [p.2] else a) acc = acc := by
  induction ops generalizing acc with
  | nil => rfl
  | cons p rest ih =>
    rw [List.foldl_cons, if_neg (h p (by simp))]
    exact ih acc (fun q hq => h q (by simp [hq]))

/-- C8 (amended): on a non-page-like request the inner handler runs against
the real response writer with no buffering, and its status and body pass
through unmodified; the headers likewise pass through except that the
wrapper first sets the three cache-disabling headers `Cache-Control`,
`Pragma` and `Expires` on every response (the handler can still overwrite
them). -/
theorem interceptor_nonpage_passthrough_amended (inner : InnerResp)
    (path : List Char) (h : isPageLike path = false) :
    (liveReloadWrapper inner path).status = inner.status.getD 200 ∧
    (liveReloadWrapper inner path).body = inner.body ∧
    (∀ k, k ≠ "Cache-Control" → k ≠ "Pragma" → k ≠ "Expires" →
      hdrGet (liveReloadWrapper inner path).headers k =
        hdrGet (applySets [] inner.hSet) k) ∧
    ((∀ p ∈ inner.hSet, p.1 ≠ "Cache-Control") →
      hdrGet (liveReloadWrapper inner path).headers "Cache-Control" =
        some ["no-cache, no-store, must-revalidate"]) := by
  refine ⟨by simp [liveReloadWrapper, h], by simp [liveReloadWrapper, h],
    ?_, ?_⟩
  · intro k hk1 hk2 hk3
    simp only [liveReloadWrapper, h, Bool.false_eq_true, if_false]
    rw [hdrGet_applySets, hdrGet_applySets,
      hdrGet_cacheHeaders_other k hk1 hk2 hk3]
    rfl
  · intro hnone
    simp only [liveReloadWrapper, h, Bool.false_eq_true, if_false]
    rw [hdrGet_applySets]
    have hcc : hdrGet cacheHeaders "Cache-Control" =
        some ["no-cache, no-store, must-revalidate"] := by decide
    rw [hcc, foldl_setLast_of_absent _ _ hnone]

theorem interceptor_nonpage_passthrough_amended_witness :
    (isPageLike "/img.png".data = false) ∧
    ((liveReloadWrapper ⟨[("X-Test", "1")], none, ['y']⟩ "/img.png".data).status =
      (Option.getD none 200) ∧
    (liveReloadWrapper ⟨[("X-Test", "1")], none, ['y']⟩ "/img.png".data).body = ['y'] ∧
    (∀ k, k ≠ "Cache-Control" → k ≠ "Pragma" → k ≠ "Expires" →
      hdrGet (liveReloadWrapper ⟨[("X-Test", "1")], none, ['y']⟩ "/img.png".data).headers k =
        hdrGet (applySets [] [("X-Test", "1")]) k) ∧
    ((∀ p ∈ [(("X-Test" : String), ("1" : String))], p.1 ≠ "Cache-Control") →
      hdrGet (liveReloadWrapper ⟨[("X-Test", "1")], none, ['y']⟩ "/img.png".data).headers
        "Cache-Control" = some ["no-cache, no-store, must-revalidate"])) :=
  ⟨by decide,
    interceptor_nonpage_passthrough_amended ⟨[("X-Test", "1")], none, ['y']⟩
      "/img.png".data (by decide)⟩

/-- C9 (implicit): the intercepting writer initializes its captured status
to 200, so a page-like request whose inner handler writes a body without
ever calling `WriteHeader` is treated as status-OK and takes the
script-injection path: the forwarded body is the rewritten one and a
`Content-Length` header is set to its length. -/
theorem interceptor_default_status_injects (inner : InnerResp) (path : List Char)
    (hs : inner.status = none) (hp : isPageLike path = true) :
    newInterceptingWriter.statusCode = 200 ∧
    (runIntercept inner).statusCode = 200 ∧
    (liveReloadWrapper inner path).status = 200 ∧
    (liveReloadWrapper inner path).body =
      goReplaceOnce bodyTag (scriptChars ++ bodyTag) inner.body ∧
    hdrGet (liveReloadWrapper inner path).headers "Content-Length" =
      some [toString (goReplaceOnce bodyTag (scriptChars ++ bodyTag)
        inner.body).length] := by
  have h200 : (runIntercept inner).statusCode = 200 := by
    rw [runIntercept_statusCode, hs]
    rfl
  refine ⟨rfl, h200, ?_, ?_, ?_⟩
  · simp [liveReloadWrapper, hp, h200]
  · simp [liveReloadWrapper, hp, h200, runIntercept_body]
  · simp only [liveReloadWrapper, hp, if_true, h200, ne_eq,
      not_true_eq_false, if_false, runIntercept_body]
    rw [hdrGet_hdrSet]
    simp

theorem interceptor_default_status_injects_witness :
    ((⟨[], none, "<b>hi</b></body>".data⟩ : InnerResp).status = none ∧
      isPageLike "/index.html".data = true) ∧
    (newInterceptingWriter.statusCode = 200 ∧
    (runIntercept ⟨[], none, "<b>hi</b></body>".data⟩).statusCode = 200 ∧
    (liveReloadWrapper ⟨[], none, "<b>hi</b></body>".data⟩ "/index.html".data).status = 200 ∧
    (liveReloadWrapper ⟨[], none, "<b>hi</b></body>".data⟩ "/index.html".data).body =
      goReplaceOnce bodyTag (scriptChars ++ bodyTag) "<b>hi</b></body>".data ∧
    hdrGet (liveReloadWrapper ⟨[], none, "<b>hi</b></body>".data⟩ "/index.html".data).headers
      "Content-Length" =
      some [toString (goReplaceOnce bodyTag (scriptChars ++ bodyTag)
        "<b>hi</b></body>".data).length]) :=
  ⟨⟨rfl, by decide⟩,
    interceptor_default_status_injects ⟨[], none, "<b>hi</b></body>".data⟩
      "/index.html".data rfl (by decide)⟩

/-- C1 counterexample: a page-like 200 response whose body contains no
closing body tag is forwarded without the script appearing in it at all, so
the body does not contain the injected script exactly once. -/
theorem liveReload_injection_cex :
    isPageLike "/".data = true ∧
    (runIntercept ⟨[], none, "hello".data⟩).statusCode = 200 ∧
    (liveReloadWrapper ⟨[], none, "hello".data⟩ "/".data).body = "hello".data ∧
    countOcc scriptChars (liveReloadWrapper ⟨[], none, "hello".data⟩ "/".data).body
      = 0 := by
  refine ⟨by decide, by decide, ?_, ?_⟩ <;> decide

/-- C1 (amended): for a page-like request whose captured status is 200, if
the body contains the closing body tag then the forwarded body is the
original body with the reload-client script inserted exactly once,
immediately before the first occurrence of the tag, all other bytes
unchanged; if the body contains no closing body tag it is forwarded
unchanged; in both cases the `Content-Length` header is set to exactly the
byte length of the forwarded body. -/
theorem liveReload_injection_amended (inner inner2 : InnerResp)
    (path path2 : List Char) (i : Nat)
    (h1 : isPageLike path = true)
    (hs1 : (runIntercept inner).statusCode = 200)
    (hi : listIndexOf bodyTag inner.body = some i)
    (h2 : isPageLike path2 = true)
    (hs2 : (runIntercept inner2).statusCode = 200)
    (hn : listIndexOf bodyTag inner2.body = none) :
    (liveReloadWrapper inner path).body =
      inner.body.take i ++ scriptChars ++ inner.body.drop i ∧
    hdrGet (liveReloadWrapper inner path).headers "Content-Length" =
      some [toString (liveReloadWrapper inner path).body.length] ∧
    (liveReloadWrapper inner2 path2).body = inner2.body ∧
    hdrGet (liveReloadWrapper inner2 path2).headers "Content-Length" =
      some [toString (liveReloadWrapper inner2 path2).body.length] := by
  have hb1 : (liveReloadWrapper inner path).body =
      goReplaceOnce bodyTag (scriptChars ++ bodyTag) inner.body := by
    simp [liveReloadWrapper, h1, hs1, runIntercept_body]
  have hb2 : (liveReloadWrapper inner2 path2).body =
      goReplaceOnce bodyTag (scriptChars ++ bodyTag) inner2.body := by
    simp [liveReloadWrapper, h2, hs2, runIntercept_body]
  refine ⟨?_, ?_, ?_, ?_⟩
  · rw [hb1, goReplaceOnce, hi]
    rw [listIndexOf_drop_decomp hi]
    simp
  · simp only [liveReloadWrapper, h1, if_true, hs1, ne_eq, not_true_eq_false,
      if_false, runIntercept_body]
    rw [hdrGet_hdrSet]
    simp
  · rw [hb2, goReplaceOnce, hn]
  · simp only [liveReloadWrapper, h2, if_true, hs2, ne_eq, not_true_eq_false,
      if_false, runIntercept_body]
    rw [hdrGet_hdrSet]
    simp

theorem liveReload_injection_amended_witness :
    (isPageLike "/p.html".data = true ∧
      (runIntercept ⟨[], some 200, "a</body>b".data⟩).statusCode = 200 ∧
      listIndexOf bodyTag ("a</body>b".data) = some 1 ∧
      isPageLike "/q/".data = true ∧
      (runIntercept ⟨[], none, "plain".data⟩).statusCode = 200 ∧
      listIndexOf bodyTag ("plain".data) = none) ∧
    ((liveReloadWrapper ⟨[], some 200, "a</body>b".data⟩ "/p.html".data).body =
      ("a</body>b".data).take 1 ++ scriptChars ++ ("a</body>b".data).drop 1 ∧
    hdrGet (liveReloadWrapper ⟨[], some 200, "a</body>b".data⟩ "/p.html".data).headers
      "Content-Length" =
      some [toString (liveReloadWrapper ⟨[], some 200, "a</body>b".data⟩
        "/p.html".data).body.length] ∧
    (liveReloadWrapper ⟨[], none, "plain".data⟩ "/q/".data).body = "plain".data ∧
    hdrGet (liveReloadWrapper ⟨[], none, "plain".data⟩ "/q/".data).headers
      "Content-Length" =
      some [toString (liveReloadWrapper ⟨[], none, "plain".data⟩
        "/q/".data).body.length]) :=
  ⟨⟨by decide, by decide, by decide, by decide, by decide, by decide⟩,
    liveReload_injection_amended ⟨[], some 200, "a</body>b".data⟩
      ⟨[], none, "plain".data⟩ "/p.html".data "/q/".data 1
      (by decide) (by decide) (by decide) (by decide) (by decide) (by decide)⟩

/-! ## Reload hub (internal/server/hub.go)

Clients are identified by their connection object; here a client is a
natural number and `sendFails c = true` models `WriteMessage` returning an
error on that connection (in particular a connection already broken before
the broadcast). The hub's membership map, protected by its mutex, is the
list of registered clients; because `register`, `unregister` and
`broadcastMessage` all run under the same lock, a broadcast pass operates
on a snapshot of membership and any registration started after the pass
begins is ordered after it. -/

/-- A websocket client connection. -/
abbrev Client := Nat

/-- `Hub.register`: adds the connection to the membership map. -/
def hubRegister (clients : List Client) (c : Client) : List Client :=
  c :: clients

/-- `Hub.unregister`: removes the connection from membership (and closes
it) if present; calling it again is a no-op. -/
def hubUnregister (clients : List Client) (c : Client) : List Client :=
  clients.filter (fun x => x != c)

/-- `Hub.broadcastMessage`: iterate the membership map, attempt one
`WriteMessage` per client; on error close the client and delete it from
membership. Returns (membership after the pass, clients whose send
succeeded, clients closed and removed during the pass). Every client of
the input list receives exactly one send attempt. -/
def broadcastMessage (sendFails : Client → Bool) :
    List Client → List Client × List Client × List Client
  | [] => ([], [], [])
  | c :: rest =>
    let r := broadcastMessage sendFails rest
    if sendFails c then (r.1, r.2.1, c :: r.2.2)
    else (c :: r.1, c :: r.2.1, r.2.2)

theorem broadcastMessage_remaining (sendFails : Client → Bool)
    (clients : List Client) :
    (broadcastMessage sendFails clients).1 =
      clients.filter (fun c => !(sendFails c)) := by
  induction clients with
  | nil => rfl
  | cons c rest ih =>
    by_cases h : sendFails c = true <;>
      simp [broadcastMessage, List.filter_cons, h, ih]

theorem broadcastMessage_delivered (sendFails : Client → Bool)
    (clients : List Client) :
    (broadcastMessage sendFails clients).2.1 =
      clients.filter (fun c => !(sendFails c)) := by
  induction clients with
  | nil => rfl
  | cons c rest ih =>
    by_cases h : sendFails c = true <;>
      simp [broadcastMessage, List.filter_cons, h, ih]

theorem broadcastMessage_closed (sendFails : Client → Bool)
    (clients : List Client) :
    (broadcastMessage sendFails clients).2.2 = clients.filter sendFails := by
  induction clients with
  | nil => rfl
  | cons c rest ih =>
    by_cases h : sendFails c = true <;>
      simp [broadcastMessage, List.filter_cons, h, ih]

/-- C3: in one broadcast pass over the membership snapshot (no duplicate
connections, as map keys), a member whose send succeeds receives the
payload exactly once and stays a member; a member whose send fails — for
example a connection already broken before the pass — receives nothing and
is closed and removed from membership in that same pass; and a client not
in the snapshot (one registered after the pass began) receives nothing and
is not touched. -/
theorem hub_broadcast_membership (sendFails : Client → Bool)
    (clients : List Client) (cOk cBad d : Client)
    (hnd : clients.Nodup)
    (h1 : cOk ∈ clients) (h2 : sendFails cOk = false)
    (h3 : cBad ∈ clients) (h4 : sendFails cBad = true)
    (h5 : d ∉ clients) :
    ((broadcastMessage sendFails clients).2.1.count cOk = 1 ∧
      cOk ∈ (broadcastMessage sendFails clients).1) ∧
    (cBad ∉ (broadcastMessage sendFails clients).2.1 ∧
      cBad ∉ (broadcastMessage sendFails clients).1 ∧
      cBad ∈ (broadcastMessage sendFails clients).2.2) ∧
    (d ∉ (broadcastMessage sendFails clients).2.1 ∧
      d ∉ (broadcastMessage sendFails clients).2.2) := by
  rw [broadcastMessage_remaining, broadcastMessage_delivered,
    broadcastMessage_closed]
  refine ⟨⟨?_, ?_⟩, ⟨?_, ?_, ?_⟩, ⟨?_, ?_⟩⟩
  · rw [List.count_filter (by simp [h2])]
    exact List.count_eq_one_of_mem hnd h1
  · exact List.mem_filter.2 ⟨h1, by simp [h2]⟩
  · intro hmem
    have := (List.mem_filter.1 hmem).2
    simp [h4] at this
  · intro hmem
    have := (List.mem_filter.1 hmem).2
    simp [h4] at this
  · exact List.mem_filter.2 ⟨h3, by simp [h4]⟩
  · intro hmem
    exact h5 (List.mem_filter.1 hmem).1
  · intro hmem
    exact h5 (List.mem_filter.1 hmem).1

theorem hub_broadcast_membership_witness :
    (([5, 6, 7] : List Client).Nodup ∧
      (5 : Client) ∈ ([5, 6, 7] : List Client) ∧
      (fun c => decide (c = 6)) (5 : Client) = false ∧
      (6 : Client) ∈ ([5, 6, 7] : List Client) ∧
      (fun c => decide (c = 6)) (6 : Client) = true ∧
      (9 : Client) ∉ ([5, 6, 7] : List Client)) ∧
    (((broadcastMessage (fun c => decide (c = 6)) [5, 6, 7]).2.1.count 5 = 1 ∧
      (5 : Client) ∈ (broadcastMessage (fun c => decide (c = 6)) [5, 6, 7]).1) ∧
    ((6 : Client) ∉ (broadcastMessage (fun c => decide (c = 6)) [5, 6, 7]).2.1 ∧
      (6 : Client) ∉ (broadcastMessage (fun c => decide (c = 6)) [5, 6, 7]).1 ∧
      (6 : Client) ∈ (broadcastMessage (fun c => decide (c = 6)) [5, 6, 7]).2.2) ∧
    ((9 : Client) ∉ (broadcastMessage (fun c => decide (c = 6)) [5, 6, 7]).2.1 ∧
      (9 : Client) ∉ (broadcastMessage (fun c => decide (c = 6)) [5, 6, 7]).2.2)) :=
  ⟨⟨by decide, by decide, by decide, by decide, by decide, by decide⟩,
    hub_broadcast_membership (fun c => decide (c = 6)) [5, 6, 7] 5 6 9
      (by decide) (by decide) (by decide) (by decide) (by decide) (by decide)⟩

/-! ## Watch and debounce scheduler (internal/server/server.go,
`watchForChanges`)

The single scheduler loop is embedded as explicit state passing over the
stream of filesystem events in arrival order. Times are milliseconds.
`now` is the wall-clock time at which the loop is next free to read from
the event channel; an event occurring at `e.time` is therefore processed at
`max now e.time`. The Go zero `lastBuildTime` (against which `time.Since`
is astronomically large) is `none`. On a qualifying event passing the
debounce gate the loop sleeps 100 ms, runs the build (its duration and
outcome are the external parameters `buildDur`, `buildOk`, indexed by build
number), broadcasts `reload` exactly when the build returned no error, and
then sets `lastBuildTime` to the completion time, exactly as the code does
after `buildFunc` returns. A log record with `ok = false` is a rebuild
whose error was logged. -/

/-- One fsnotify event: its occurrence time and which operation bits are
set; a chmod-only (metadata) event has all four qualifying bits false. -/
structure FsEvent where
  time : Nat
  isWrite : Bool := false
  isCreate : Bool := false
  isRemove : Bool := false
  isRename : Bool := false
  isChmod : Bool := false
  deriving DecidableEq, Repr

/-- The event filter in `watchForChanges`:
`event.Has(Write) || event.Has(Create) || event.Has(Remove) || event.Has(Rename)`. -/
def qualifies (e : FsEvent) : Bool :=
  e.isWrite || e.isCreate || e.isRemove || e.isRename

/-- One triggered rebuild: when the triggering event was processed, when
the build was invoked (after the settle sleep), when it completed, and
whether it succeeded. -/
structure BuildRec where
  triggerTime : Nat
  invokeTime : Nat
  endTime : Nat
  ok : Bool
  deriving DecidableEq, Repr

/-- Scheduler loop state: next-free time, `lastBuildTime`, number of builds
run, their records, and the payloads broadcast so far. -/
structure SchedState where
  now : Nat
  last : Option Nat
  builds : Nat
  log : List BuildRec
  bcasts : List (List Char)
  deriving DecidableEq, Repr

/-- The fixed payload `hub.broadcastMessage([]byte("reload"))` sends. -/
def reloadPayload : List Char := "reload".data

/-- `time.Since(lastBuildTime) > debounceDuration` at processing time `p`,
with the 500 ms constant from the source. -/
def debounceOk : Option Nat → Nat → Bool
  | none, _ => true
  | some t, p => decide (500 < p - t)

/-- One iteration of the `watchForChanges` select loop on an event. -/
def procEvent (buildDur : Nat → Nat) (buildOk : Nat → Bool)
    (s : SchedState) (e : FsEvent) : SchedState :=
  let p := max s.now e.time
  if qualifies e && debounceOk s.last p then
    let invokeAt := p + 100
    let endAt := invokeAt + buildDur s.builds
    let ok := buildOk s.builds
    { now := endAt, last := some endAt, builds := s.builds + 1,
      log := s.log ++ [⟨p, invokeAt, endAt, ok⟩],
      bcasts := if ok then s.bcasts ++ [reloadPayload] else s.bcasts }
  else { s with now := p }

/-- The scheduler loop over a finite prefix of the event stream. -/
def runSched (buildDur : Nat → Nat) (buildOk : Nat → Bool)
    (evts : List FsEvent) (s : SchedState) : SchedState :=
  evts.foldl (procEvent buildDur buildOk) s

/-- Scheduler state at loop entry: clock origin 0, zero `lastBuildTime`,
no builds, no broadcasts. -/
def initState : SchedState :=
  { now := 0, last := none, builds := 0, log := [], bcasts := [] }

/-- The debounce gate between consecutive rebuilds: the later one triggers
strictly more than 500 ms after the earlier one completed. -/
def gapRel (a b : BuildRec) : Prop := a.endTime + 500 < b.triggerTime

theorem runSched_nil (bd : Nat → Nat) (bo : Nat → Bool) (s : SchedState) :
    runSched bd bo [] s = s := rfl

theorem runSched_cons (bd : Nat → Nat) (bo : Nat → Bool) (e : FsEvent)
    (es : List FsEvent) (s : SchedState) :
    runSched bd bo (e :: es) s = runSched bd bo es (procEvent bd bo s e) := rfl

/-- The inductive invariant of the scheduler loop. -/
def SchedInv (s : SchedState) : Prop :=
  s.builds = s.log.length ∧
  s.last = s.log.getLast?.map BuildRec.endTime ∧
  (∀ L, s.last = some L → L ≤ s.now) ∧
  (∀ r ∈ s.log, r.invokeTime = r.triggerTime + 100) ∧
  List.Chain' gapRel s.log ∧
  s.bcasts = (s.log.filter (fun r => r.ok)).map (fun _ => reloadPayload)

theorem schedInv_init : SchedInv initState := by
  refine ⟨rfl, rfl, ?_, ?_, ?_, rfl⟩
  · intro L h
    exact Option.noConfusion h
  · intro r h
    exact absurd h (List.not_mem_nil r)
  · exact List.chain'_nil

theorem schedInv_step (bd : Nat → Nat) (bo : Nat → Bool) (s : SchedState)
    (e : FsEvent) (h : SchedInv s) : SchedInv (procEvent bd bo s e) := by
  obtain ⟨h1, h2, h3, h4, h5, h6⟩ := h
  set m := max s.now e.time with hm
  have hsnow : s.now ≤ m := Nat.le_max_left _ _
  cases hc : (qualifies e && debounceOk s.last m) with
  | true =>
    have hdb : debounceOk s.last m = true := by
      rw [Bool.and_eq_true] at hc
      exact hc.2
    simp only [procEvent, ← hm, hc, if_true]
    refine ⟨by simp [h1], by simp, ?_, ?_, ?_, ?_⟩
    · intro L hL
      simp only [Option.some.injEq] at hL
      show L ≤ m + 100 + bd s.builds
      omega
    · intro r hr
      rcases List.mem_append.1 hr with hr | hr
      · exact h4 r hr
      · simp at hr
        subst hr
        rfl
    · rw [List.chain'_append]
      refine ⟨h5, List.chain'_singleton _, ?_⟩
      intro x hx y hy
      simp at hy
      subst hy
      rw [Option.mem_def] at hx
      rw [h2] at hdb
      cases hlog : s.log.getLast? with
      | none =>
        rw [hlog] at hx
        exact Option.noConfusion hx
      | some r =>
        rw [hlog] at hx hdb
        injection hx with hx
        subst hx
        simp only [Option.map_some', debounceOk, decide_eq_true_eq] at hdb
        show r.endTime + 500 < m
        omega
    · rw [List.filter_append, List.map_append, ← h6]
      cases hok : bo s.builds <;> simp [hok]
  | false =>
    simp only [procEvent, ← hm, hc, Bool.false_eq_true, if_false]
    refine ⟨h1, h2, ?_, h4, h5, h6⟩
    intro L hL
    have := h3 L hL
    show L ≤ m
    omega

theorem schedInv_run (bd : Nat → Nat) (bo : Nat → Bool) (evts : List FsEvent)
    (s : SchedState) (h : SchedInv s) : SchedInv (runSched bd bo evts s) := by
  induction evts generalizing s with
  | nil => exact h
  | cons e rest ih => exact ih _ (schedInv_step bd bo s e h)

/-- While fewer than 500 ms (at processing time) have passed since the last
completed build, no event — qualifying or not — triggers another build. -/
theorem runSched_no_new_build (bd : Nat → Nat) (bo : Nat → Bool) (L : Nat)
    (es : List FsEvent) :
    ∀ s : SchedState, s.last = some L → s.now ≤ L + 500 →
      (∀ x ∈ es, x.time ≤ L + 500) →
      (runSched bd bo es s).builds = s.builds ∧
        (runSched bd bo es s).log = s.log := by
  induction es with
  | nil => exact fun s _ _ _ => ⟨rfl, rfl⟩
  | cons e rest ih =>
    intro s hlast hnow hall
    have hp : max s.now e.time ≤ L + 500 :=
      max_le hnow (hall e (by simp))
    have hdb : debounceOk s.last (max s.now e.time) = false := by
      rw [hlast]
      simp only [debounceOk, decide_eq_false_iff_not]
      omega
    have hstep : procEvent bd bo s e = { s with now := max s.now e.time } := by
      simp [procEvent, hdb]
    rw [runSched_cons, hstep]
    exact ih _ hlast hp (fun x hx => hall x (by simp [hx]))

/-- C2: a burst of N >= 1 qualifying filesystem events whose later events
all fall within 500 ms of the first, arriving at a freshly started
scheduler, triggers exactly one rebuild; moreover, on every event stream,
each triggered rebuild invokes the build exactly 100 ms (the settle delay)
after its triggering event is processed, and consecutive rebuilds are
separated by the debounce gate: a rebuild triggers only strictly more than
500 ms after the previous rebuild completed. -/
theorem scheduler_debounce_burst (bd : Nat → Nat) (bo : Nat → Bool)
    (e : FsEvent) (rest evts : List FsEvent)
    (hq : qualifies e = true)
    (hq2 : ∀ x ∈ rest, qualifies x = true)
    (hall : ∀ x ∈ rest, x.time ≤ e.time + 500) :
    (runSched bd bo (e :: rest) initState).builds = 1 ∧
    (∀ r ∈ (runSched bd bo evts initState).log,
      r.invokeTime = r.triggerTime + 100) ∧
    List.Chain' gapRel (runSched bd bo evts initState).log := by
  refine ⟨?_, ?_, ?_⟩
  · have hs1 : procEvent bd bo initState e =
        { now := e.time + 100 + bd 0, last := some (e.time + 100 + bd 0),
          builds := 1,
          log := [⟨e.time, e.time + 100, e.time + 100 + bd 0, bo 0⟩],
          bcasts := if bo 0 then [reloadPayload] else [] } := by
      simp [procEvent, initState, hq, debounceOk, Nat.zero_max]
    rw [runSched_cons, hs1]
    have hres := runSched_no_new_build bd bo (e.time + 100 + bd 0) rest
      { now := e.time + 100 + bd 0, last := some (e.time + 100 + bd 0),
        builds := 1,
        log := [⟨e.time, e.time + 100, e.time + 100 + bd 0, bo 0⟩],
        bcasts := if bo 0 then [reloadPayload] else [] }
      rfl (Nat.le_add_right _ 500)
      (fun x hx => le_trans (hall x hx) (by omega))
    exact hres.1
  · exact (schedInv_run bd bo evts initState schedInv_init).2.2.2.1
  · exact (schedInv_run bd bo evts initState schedInv_init).2.2.2.2.1

theorem scheduler_debounce_burst_witness :
    (qualifies ⟨3, true, false, false, false, false⟩ = true ∧
      (∀ x ∈ [(⟨40, false, true, false, false, false⟩ : FsEvent),
        ⟨503, true, false, false, false, false⟩], qualifies x = true) ∧
      (∀ x ∈ [(⟨40, false, true, false, false, false⟩ : FsEvent),
        ⟨503, true, false, false, false, false⟩],
        x.time ≤ (⟨3, true, false, false, false, false⟩ : FsEvent).time + 500)) ∧
    ((runSched (fun _ => 7) (fun _ => true)
        (⟨3, true, false, false, false, false⟩ ::
          [(⟨40, false, true, false, false, false⟩ : FsEvent),
            ⟨503, true, false, false, false, false⟩]) initState).builds = 1 ∧
    (∀ r ∈ (runSched (fun _ => 7) (fun _ => true)
        [(⟨3, true, false, false, false, false⟩ : FsEvent),
          ⟨40, false, true, false, false, false⟩,
          ⟨503, true, false, false, false, false⟩] initState).log,
      r.invokeTime = r.triggerTime + 100) ∧
    List.Chain' gapRel (runSched (fun _ => 7) (fun _ => true)
        [(⟨3, true, false, false, false, false⟩ : FsEvent),
          ⟨40, false, true, false, false, false⟩,
          ⟨503, true, false, false, false, false⟩] initState).log) :=
  ⟨⟨by decide, by decide, by decide⟩,
    scheduler_debounce_burst (fun _ => 7) (fun _ => true)
      ⟨3, true, false, false, false, false⟩
      [⟨40, false, true, false, false, false⟩,
        ⟨503, true, false, false, false, false⟩]
      [⟨3, true, false, false, false, false⟩,
        ⟨40, false, true, false, false, false⟩,
        ⟨503, true, false, false, false, false⟩]
      (by decide) (by decide) (by decide)⟩

/-- C6: on any event stream, the scheduler broadcasts exactly one `reload`
payload per successful rebuild and nothing for a failed rebuild (whose
record, with its logged error, stays in the log while contributing no
broadcast); every broadcast carries the fixed payload `reload`; and a
build failure is not fatal: the loop keeps consuming the rest of the event
stream identically, the state after any prefix feeding the processing of
the remainder. -/
theorem scheduler_failure_no_broadcast (bd : Nat → Nat) (bo : Nat → Bool)
    (evts es1 es2 : List FsEvent) (s : SchedState) :
    (runSched bd bo evts initState).bcasts =
      ((runSched bd bo evts initState).log.filter (fun r => r.ok)).map
        (fun _ => reloadPayload) ∧
    (∀ m ∈ (runSched bd bo evts initState).bcasts, m = reloadPayload) ∧
    runSched bd bo (es1 ++ es2) s = runSched bd bo es2 (runSched bd bo es1 s) := by
  have hinv := schedInv_run bd bo evts initState schedInv_init
  refine ⟨hinv.2.2.2.2.2, ?_, ?_⟩
  · intro m hm
    rw [hinv.2.2.2.2.2] at hm
    obtain ⟨a, _, ha⟩ := List.mem_map.1 hm
    exact ha.symm
  · simp [runSched, List.foldl_append]

end Nibl
